import Mathlib

/-!
Shallow embedding of the `moving` Rust crate (`src/lib.rs`) and proofs of the
spec's claims about it.

Modelling conventions:
* `Vec<T>` is modelled by `RVec T`: the logical contents as a `List T` plus the
  allocation capacity as a `Nat`.
* `[T; N]` (a fixed-size array) is modelled by a `List T` whose length is `N`;
  the length fact is carried as a hypothesis where it matters.
* Fallible operations return `Except MovingArrayError _`; operations that can
  panic (index out of bounds, `unwrap`) return `Option _`, with `none`
  modelling the panic.
* Mutation of `&mut self` is modelled by returning the updated state.
-/

namespace Moving

/-- Model of Rust `Vec<T>`: logical contents plus allocation capacity.
A real `Vec` satisfies `data.length ≤ cap`; none of the modelled code
depends on that fact, so it is not baked into the structure. -/
structure RVec (T : Type) where
  data : List T
  cap : Nat
deriving Repr, DecidableEq

/-- Rust `Vec::len` -/
def RVec.len (v : RVec T) : Nat := v.data.length

/-- Rust `Vec::capacity` -/
def RVec.capacity (v : RVec T) : Nat := v.cap

/-- The crate's single error type `MovingArrayError`. -/
inductive MovingArrayError where
  | LengthUnmatch (expected : Nat) (got : Nat)
deriving Repr, DecidableEq

/-- Rust `move_vec_to_array::<T, N>`: fails with `LengthUnmatch` unless
`vec.len() == N && vec.capacity() == N`; on success the backing memory is
reinterpreted as `[T; N]`, i.e. the result holds exactly the vector's
elements in order. -/
def move_vec_to_array (N : Nat) (vec : RVec T) : Except MovingArrayError (List T) :=
  if vec.len ≠ N ∨ vec.capacity ≠ N then
    .error (.LengthUnmatch N vec.len)
  else
    .ok vec.data

/-- C1: for every element type `T`, size `N` and vector `v` with
`v.len() == N` and `v.capacity() == N`, `move_vec_to_array::<T, N>(v)`
succeeds and the returned array holds exactly `v`'s elements in order. -/
theorem move_vec_to_array_roundtrip {T : Type} (N : Nat) (v : RVec T)
    (hlen : v.len = N) (hcap : v.capacity = N) :
    move_vec_to_array N v = .ok v.data := by
  simp [move_vec_to_array, hlen, hcap]

theorem move_vec_to_array_roundtrip_witness :
    (RVec.len ⟨[10, 11, 12], 3⟩ = 3) ∧ (RVec.capacity ⟨[10, 11, 12], 3⟩ = 3) ∧
      move_vec_to_array 3 (⟨[10, 11, 12], 3⟩ : RVec Nat) = .ok [10, 11, 12] :=
  ⟨rfl, rfl, move_vec_to_array_roundtrip 3 ⟨[10, 11, 12], 3⟩ rfl rfl⟩

/-- C2: `move_vec_to_array::<T, N>(v)` fails iff `v.len() ≠ N` or
`v.capacity() ≠ N`, and the only error ever produced is
`LengthUnmatch { expected := N, got := v.len() }`. -/
theorem move_vec_to_array_error_iff {T : Type} (N : Nat) (v : RVec T) :
    ((∃ e, move_vec_to_array N v = .error e) ↔ (v.len ≠ N ∨ v.capacity ≠ N)) ∧
      (∀ e, move_vec_to_array N v = .error e →
        e = .LengthUnmatch N v.len) := by
  constructor
  · constructor
    · rintro ⟨e, he⟩
      by_contra hcon
      push_neg at hcon
      simp [move_vec_to_array, hcon.1, hcon.2] at he
    · intro h
      exact ⟨.LengthUnmatch N v.len, by simp [move_vec_to_array, h]⟩
  · intro e he
    by_cases h : v.len ≠ N ∨ v.capacity ≠ N
    · simp [move_vec_to_array, h] at he
      exact he.symm
    · push_neg at h
      simp [move_vec_to_array, h.1, h.2] at he

theorem move_vec_to_array_error_iff_witness :
    ((∃ e, move_vec_to_array 2 (⟨[5], 1⟩ : RVec Nat) = .error e) ↔
        (RVec.len ⟨[5], 1⟩ ≠ 2 ∨ RVec.capacity ⟨[5], 1⟩ ≠ 2)) ∧
      (∀ e, move_vec_to_array 2 (⟨[5], 1⟩ : RVec Nat) = .error e →
        e = .LengthUnmatch 2 (RVec.len ⟨[5], 1⟩)) :=
  move_vec_to_array_error_iff 2 ⟨[5], 1⟩

/-- Rust `MovableArray<T, N>`: a fixed-size array of `Option<T>` slots.
The Rust type `[Option<T>; N]` guarantees `slots.length = N`; here the
constructors produce lists of length `N`, every operation preserves the
length, and the fact is carried as a hypothesis where a proof needs it. -/
structure MovableArray (T : Type) (N : Nat) where
  slots : List (Option T)
deriving Repr, DecidableEq

/-- Rust `MovableArray::from_vec`: same guard as `move_vec_to_array`; on success
`array::from_fn(|_| iter.next())` draws the vector's elements in ascending
order, so slot `i` receives `Some` of element `i` (the iterator holds exactly
`N` elements because of the guard). -/
def MovableArray.from_vec (N : Nat) (vec : RVec T) :
    Except MovingArrayError (MovableArray T N) :=
  if vec.len ≠ N ∨ vec.capacity ≠ N then
    .error (.LengthUnmatch N vec.len)
  else
    .ok ⟨(List.range N).map (fun i => vec.data.get? i)⟩

/-- Rust `MovableArray::from_array`: `array::from_fn(|_| iter.next())` over the
array's iterator; slot `i` receives `Some` of element `i` (the `[T; N]`
argument always has exactly `N` elements). -/
def MovableArray.from_array (N : Nat) (arr : List T) : MovableArray T N :=
  ⟨(List.range N).map (fun i => arr.get? i)⟩

/-- Rust `MovableArray::take`: `self.0[index].take()`.  The indexing panics when
`index` is out of bounds (modelled by `none`); otherwise the slot is swapped
to `None` and its previous content is returned. -/
def MovableArray.take (a : MovableArray T N) (i : Nat) :
    Option (Option T × MovableArray T N) :=
  if h : i < a.slots.length then
    some (a.slots.get ⟨i, h⟩, ⟨a.slots.set i none⟩)
  else
    none

/-- One step of `range.map(|i| slots.get_mut(i).and_then(|v| v.take()))`:
`get_mut` is bounds checked, so an in-bounds index takes the slot's content
and empties it, while an out-of-bounds index yields `none` and leaves the
state untouched (`List.set` is the identity out of bounds, like `get_mut`
returning `None`). Shared by `MovableArray` and `MovableVec`, whose
`take_range_vec` bodies are textually identical. -/
def takeRangeGo (s : List (Option T)) : List Nat → List (Option T) × List (Option T)
  | [] => ([], s)
  | i :: rest =>
    let r := (s.get? i).join
    let p := takeRangeGo (s.set i none) rest
    (r :: p.1, p.2)

/-- The index list of Rust's half-open `lo..hi` in ascending order
(empty when `hi ≤ lo`). -/
def natRange (lo n : Nat) : List Nat := (List.range n).map (fun k => lo + k)

/-- Rust `MovableArray::take_range_vec`: applies the bounds-checked take to every
index of `lo..hi` in ascending order and collects the results.  The collect
from the exact-size range iterator allocates exactly the needed capacity, so
the resulting `Vec` has `capacity == length`. -/
def MovableArray.take_range_vec (a : MovableArray T N) (lo hi : Nat) :
    RVec (Option T) × MovableArray T N :=
  let p := takeRangeGo a.slots (natRange lo (hi - lo))
  (⟨p.1, p.1.length⟩, ⟨p.2⟩)

/-- Rust `MovableArray::take_range_array::<S>`: `move_vec_to_array(self.take_range_vec(range))`. -/
def MovableArray.take_range_array (S : Nat) (a : MovableArray T N) (lo hi : Nat) :
    Except MovingArrayError (List (Option T)) × MovableArray T N :=
  let p := a.take_range_vec lo hi
  (move_vec_to_array S p.1, p.2)

/-- Rust `MovableArray::len`: the constant `N`. -/
def MovableArray.len (_ : MovableArray T N) : Nat := N

/-- Rust `MovableArray::into_inner`. -/
def MovableArray.into_inner (a : MovableArray T N) : List (Option T) := a.slots

/-- Rust `MovableArray::map`: `array::from_fn(|_| f(iter.next().unwrap()))` draws
the `N` slots in ascending order and applies `f` to each; since the source
array holds exactly `N` slots the `unwrap` never fails and the result is the
positional map of `f` over the slots. -/
def MovableArray.map (a : MovableArray T N) (f : Option T → Option R) :
    MovableArray R N :=
  ⟨a.slots.map f⟩

/-- Rust `Index<usize> for MovableArray`: `&self.0[index]`, panicking (modelled by
`none`) out of bounds. -/
def MovableArray.index (a : MovableArray T N) (i : Nat) : Option (Option T) :=
  a.slots.get? i

/-- Rust `IndexMut<usize> for MovableArray` hands out `&mut self.0[index]`;
writing `v` through that reference (`a[i] = v`) replaces slot `i`'s content.
`index_mut` panics (modelled by `none`) when `i` is out of bounds. -/
def MovableArray.index_mut_set (a : MovableArray T N) (i : Nat) (v : Option T) :
    Option (MovableArray T N) :=
  if i < a.slots.length then some ⟨a.slots.set i v⟩ else none

/-- Rust `MovableVec<T>`: a `Vec<Option<T>>` of slots.  The inner vector's
capacity is never observed by any modelled operation, so only the contents
are tracked. -/
structure MovableVec (T : Type) where
  slots : List (Option T)
deriving Repr, DecidableEq

/-- Rust `MovableVec::from_vec`: `v.into_iter().map(|item| Some(item)).collect()`. -/
def MovableVec.from_vec (v : RVec T) : MovableVec T :=
  ⟨v.data.map some⟩

/-- Rust `MovableVec::from_array`: pushes `Some(item)` for each array element in
order, i.e. the positional wrap of every element as present. -/
def MovableVec.from_array (arr : List T) : MovableVec T :=
  ⟨arr.map some⟩

/-- Rust `MovableVec::take`: `self.0[index].take()`, panicking (modelled by
`none`) out of bounds. -/
def MovableVec.take (a : MovableVec T) (i : Nat) :
    Option (Option T × MovableVec T) :=
  if h : i < a.slots.length then
    some (a.slots.get ⟨i, h⟩, ⟨a.slots.set i none⟩)
  else
    none

/-- Rust `MovableVec::take_range_vec`: same body as the `MovableArray` version. -/
def MovableVec.take_range_vec (a : MovableVec T) (lo hi : Nat) :
    RVec (Option T) × MovableVec T :=
  let p := takeRangeGo a.slots (natRange lo (hi - lo))
  (⟨p.1, p.1.length⟩, ⟨p.2⟩)

/-- Rust `MovableVec::take_range_array::<S>`: `move_vec_to_array(self.take_range_vec(range))`. -/
def MovableVec.take_range_array (S : Nat) (a : MovableVec T) (lo hi : Nat) :
    Except MovingArrayError (List (Option T)) × MovableVec T :=
  let p := a.take_range_vec lo hi
  (move_vec_to_array S p.1, p.2)

/-- Rust `MovableVec::len`: the current slot count. -/
def MovableVec.len (a : MovableVec T) : Nat := a.slots.length

/-- Rust `MovableVec::into_inner`. -/
def MovableVec.into_inner (a : MovableVec T) : List (Option T) := a.slots

/-- Rust `MovableVec::map`: `self.0.into_iter().map(|item| f(item)).collect()`. -/
def MovableVec.map (a : MovableVec T) (f : Option T → Option R) : MovableVec R :=
  ⟨a.slots.map f⟩

/-- Rust `VecOrArray<T, N>`: the façade's input, either a `Vec<T>` or a `[T; N]`. -/
inductive VecOrArray (T : Type) (N : Nat) where
  | vec (v : RVec T)
  | array (arr : List T)
deriving Repr, DecidableEq

/-- Rust `movable`: routes either source into a `MovableVec`, never failing. -/
def movable : VecOrArray T N → MovableVec T
  | .vec v => MovableVec.from_vec v
  | .array arr => MovableVec.from_array arr

/-- Rust `nmovable`: routes either source into a `MovableArray<T, N>`;
only the vector path can fail. -/
def nmovable : VecOrArray T N → Except MovingArrayError (MovableArray T N)
  | .vec v => MovableArray.from_vec N v
  | .array arr => .ok (MovableArray.from_array N arr)

/-! ### General lemmas about the embedded operations -/

/-- Drawing a length-`n` iterator into `n` slots in ascending order wraps
every element as present, positionally. -/
theorem fresh_slots_eq {T : Type} :
    ∀ l : List T, (List.range l.length).map (fun i => l.get? i) = l.map some := by
  intro l
  induction l with
  | nil => rfl
  | cons x xs ih =>
    show (List.range (xs.length + 1)).map (fun i => (x :: xs).get? i) = _
    rw [List.range_succ_eq_map, List.map_cons, List.map_map]
    simp only [List.map_cons]
    refine congrArg (some x :: ·) ?_
    calc (List.range xs.length).map ((fun i => (x :: xs).get? i) ∘ Nat.succ)
        = (List.range xs.length).map (fun i => xs.get? i) := rfl
      _ = xs.map some := ih

/-- Setting a slot to the value it already holds is the identity. -/
theorem set_self_of_get? {α : Type} :
    ∀ (l : List α) (n : Nat) (a : α), l.get? n = some a → l.set n a = l := by
  intro l
  induction l with
  | nil => intro n a h; cases h
  | cons x xs ih =>
    intro n a h
    cases n with
    | zero => cases h; rfl
    | succ m => simpa using ih m a h

theorem natRange_zero (lo : Nat) : natRange lo 0 = [] := rfl

theorem natRange_succ (lo n : Nat) : natRange lo (n + 1) = lo :: natRange (lo + 1) n := by
  unfold natRange
  rw [List.range_succ_eq_map, List.map_cons, List.map_map, Nat.add_zero]
  refine congrArg (lo :: ·) ?_
  refine List.map_congr_left ?_
  intro k _
  show lo + (k + 1) = (lo + 1) + k
  omega

/-- The state part of a range take has the same length as the input. -/
theorem takeRangeGo_state_length {T : Type} :
    ∀ (is : List Nat) (s : List (Option T)),
      (takeRangeGo s is).2.length = s.length := by
  intro is
  induction is with
  | nil => intro s; rfl
  | cons i rest ih =>
    intro s
    show (takeRangeGo (s.set i none) rest).2.length = s.length
    rw [ih, List.length_set]

/-- An already-`none` slot stays `none` through a range take. -/
theorem takeRangeGo_none_mono {T : Type} :
    ∀ (is : List Nat) (s : List (Option T)) (j : Nat),
      s.get? j = some none → (takeRangeGo s is).2.get? j = some none := by
  intro is
  induction is with
  | nil => intro s j h; exact h
  | cons i rest ih =>
    intro s j h
    show (takeRangeGo (s.set i none) rest).2.get? j = some none
    refine ih _ j ?_
    by_cases hij : i = j
    · subst hij
      rcases List.get?_eq_some.mp h with ⟨hlt, _⟩
      exact List.get?_set_eq_of_lt none (by simpa using hlt)
    · rw [List.get?_set_ne none _ hij]; exact h

/-- Full characterisation of `takeRangeGo` over the ascending index list of
`lo..lo+n`: the collected list has one entry per index, entry `j` is the
(bounds-checked) content of slot `lo + j`, and the final state empties
exactly the in-range, in-bounds slots. -/
theorem takeRangeGo_natRange_spec {T : Type} :
    ∀ (n lo : Nat) (s : List (Option T)),
      (takeRangeGo s (natRange lo n)).1.length = n
      ∧ (∀ j, j < n →
          (takeRangeGo s (natRange lo n)).1.get? j = some ((s.get? (lo + j)).join))
      ∧ (∀ k, (takeRangeGo s (natRange lo n)).2.get? k =
          if lo ≤ k ∧ k < lo + n then (s.get? k).map (fun _ => none) else s.get? k) := by
  intro n
  induction n with
  | zero =>
    intro lo s
    refine ⟨rfl, fun j hj => absurd hj (Nat.not_lt_zero j), fun k => ?_⟩
    rw [if_neg (by omega)]
    rfl
  | succ n ih =>
    intro lo s
    rw [natRange_succ]
    obtain ⟨ihlen, ihent, ihst⟩ := ih (lo + 1) (s.set lo none)
    refine ⟨?_, ?_, ?_⟩
    · show (takeRangeGo (s.set lo none) (natRange (lo + 1) n)).1.length + 1 = n + 1
      rw [ihlen]
    · intro j hj
      cases j with
      | zero => rfl
      | succ m =>
        show (takeRangeGo (s.set lo none) (natRange (lo + 1) n)).1.get? m = _
        rw [ihent m (by omega)]
        rw [List.get?_set_ne none _ (by omega)]
        refine congrArg some (congrArg Option.join (congrArg s.get? (by omega)))
    · intro k
      show (takeRangeGo (s.set lo none) (natRange (lo + 1) n)).2.get? k = _
      rw [ihst k]
      by_cases hk : k = lo
      · subst hk
        rw [if_neg (by omega), if_pos (by omega)]
        rw [List.get?_set_eq none k s]
        rfl
      · rw [List.get?_set_ne none _ (Ne.symm hk)]
        by_cases hin : lo + 1 ≤ k ∧ k < lo + 1 + n
        · rw [if_pos hin, if_pos (by omega)]
        · rw [if_neg hin, if_neg (by omega)]

/-! ### Claims C3 and C4 -/

/-- C3: a slot container freshly built from a source of length `n` — by any
of the four construction paths — answers the first `take i` (`i < n`) with
present of the `i`-th source element, and any later `take` at an emptied
index succeeds, returns empty, and leaves the state unchanged (so every
subsequent `take i` again returns empty without faulting). -/
theorem take_fresh_then_empty {T : Type} (src : List T) (v : RVec T)
    (hv : v.data = src) (hcap : v.cap = src.length) (i : Nat) (hi : i < src.length) :
    (MovableArray.from_array src.length src).slots = src.map some
    ∧ MovableArray.from_vec src.length v = .ok ⟨src.map some⟩
    ∧ (MovableVec.from_vec v).slots = src.map some
    ∧ (MovableVec.from_array src).slots = src.map some
    ∧ MovableArray.take (N := src.length) ⟨src.map some⟩ i
        = some (some (src.get ⟨i, hi⟩), ⟨(src.map some).set i none⟩)
    ∧ MovableVec.take ⟨src.map some⟩ i
        = some (some (src.get ⟨i, hi⟩), ⟨(src.map some).set i none⟩)
    ∧ (∀ s : List (Option T), s.get? i = some none →
        MovableArray.take (N := src.length) ⟨s⟩ i = some (none, ⟨s⟩))
    ∧ (∀ s : List (Option T), s.get? i = some none →
        MovableVec.take ⟨s⟩ i = some (none, ⟨s⟩)) := by
  subst hv
  have hmap : i < (v.data.map some).length := by simpa using hi
  refine ⟨?_, ?_, rfl, rfl, ?_, ?_, ?_, ?_⟩
  · exact fresh_slots_eq v.data
  · rw [MovableArray.from_vec, if_neg (by simp [RVec.len, RVec.capacity, hcap])]
    rw [fresh_slots_eq v.data]
  · rw [MovableArray.take, dif_pos hmap]
    rw [List.get_map some]
  · rw [MovableVec.take, dif_pos hmap]
    rw [List.get_map some]
  · intro s hs
    rcases List.get?_eq_some.mp hs with ⟨hlt, hval⟩
    rw [MovableArray.take, dif_pos hlt, hval, set_self_of_get? s i none hs]
  · intro s hs
    rcases List.get?_eq_some.mp hs with ⟨hlt, hval⟩
    rw [MovableVec.take, dif_pos hlt, hval, set_self_of_get? s i none hs]

theorem take_fresh_then_empty_witness :
    (((⟨[7, 8, 9], 3⟩ : RVec Nat).data = [7, 8, 9]) ∧
        ((⟨[7, 8, 9], 3⟩ : RVec Nat).cap = [7, 8, 9].length) ∧ 1 < [7, 8, 9].length) ∧
      ((MovableArray.from_array [7, 8, 9].length [7, 8, 9]).slots = [7, 8, 9].map some
        ∧ MovableArray.from_vec [7, 8, 9].length ⟨[7, 8, 9], 3⟩ = .ok ⟨[7, 8, 9].map some⟩
        ∧ (MovableVec.from_vec ⟨[7, 8, 9], 3⟩).slots = [7, 8, 9].map some
        ∧ (MovableVec.from_array [7, 8, 9]).slots = [7, 8, 9].map some
        ∧ MovableArray.take (N := [7, 8, 9].length) ⟨[7, 8, 9].map some⟩ 1
            = some (some ([7, 8, 9].get ⟨1, by decide⟩), ⟨([7, 8, 9].map some).set 1 none⟩)
        ∧ MovableVec.take ⟨[7, 8, 9].map some⟩ 1
            = some (some ([7, 8, 9].get ⟨1, by decide⟩), ⟨([7, 8, 9].map some).set 1 none⟩)
        ∧ (∀ s : List (Option Nat), s.get? 1 = some none →
            MovableArray.take (N := [7, 8, 9].length) ⟨s⟩ 1 = some (none, ⟨s⟩))
        ∧ (∀ s : List (Option Nat), s.get? 1 = some none →
            MovableVec.take ⟨s⟩ 1 = some (none, ⟨s⟩))) :=
  ⟨⟨rfl, rfl, by decide⟩,
    take_fresh_then_empty [7, 8, 9] ⟨[7, 8, 9], 3⟩ rfl rfl 1 (by decide)⟩

/-- C4: single-index `take i` faults (bounds violation, not a
`LengthUnmatch` error) when `i` is not below the slot count; in bounds it
returns the slot's previous content, empties exactly slot `i`, and changes
neither the slot count nor any other slot — for both container flavors. -/
theorem take_strict_frame {T : Type} {N : Nat} (a : MovableArray T N)
    (b : MovableVec T) (i : Nat) :
    (a.slots.length ≤ i → a.take i = none)
    ∧ (∀ h : i < a.slots.length,
        a.take i = some (a.slots.get ⟨i, h⟩, ⟨a.slots.set i none⟩)
        ∧ (a.slots.set i none).get? i = some none
        ∧ (a.slots.set i none).length = a.slots.length
        ∧ (∀ j, j ≠ i → (a.slots.set i none).get? j = a.slots.get? j))
    ∧ (b.slots.length ≤ i → b.take i = none)
    ∧ (∀ h : i < b.slots.length,
        b.take i = some (b.slots.get ⟨i, h⟩, ⟨b.slots.set i none⟩)
        ∧ (b.slots.set i none).get? i = some none
        ∧ (b.slots.set i none).length = b.slots.length
        ∧ (∀ j, j ≠ i → (b.slots.set i none).get? j = b.slots.get? j)) := by
  refine ⟨?_, ?_, ?_, ?_⟩
  · intro h
    rw [MovableArray.take, dif_neg (by omega)]
  · intro h
    refine ⟨by rw [MovableArray.take, dif_pos h], ?_, List.length_set _ _ _, ?_⟩
    · exact List.get?_set_eq_of_lt none h
    · intro j hj
      exact List.get?_set_ne none _ (Ne.symm hj)
  · intro h
    rw [MovableVec.take, dif_neg (by omega)]
  · intro h
    refine ⟨by rw [MovableVec.take, dif_pos h], ?_, List.length_set _ _ _, ?_⟩
    · exact List.get?_set_eq_of_lt none h
    · intro j hj
      exact List.get?_set_ne none _ (Ne.symm hj)

theorem take_strict_frame_witness :
    (((⟨[some 4, none]⟩ : MovableArray Nat 2).slots.length ≤ 2 →
        (⟨[some 4, none]⟩ : MovableArray Nat 2).take 2 = none)
      ∧ (∀ h : 2 < (⟨[some 4, none]⟩ : MovableArray Nat 2).slots.length,
          (⟨[some 4, none]⟩ : MovableArray Nat 2).take 2
            = some ([some 4, none].get ⟨2, h⟩, ⟨[some 4, none].set 2 none⟩)
          ∧ ([some 4, none].set 2 none).get? 2 = some none
          ∧ ([some 4, none].set 2 none).length = [some 4, none].length
          ∧ (∀ j, j ≠ 2 → ([some 4, none].set 2 none).get? j = [some 4, none].get? j))
      ∧ ((⟨[some (6 : Nat)]⟩ : MovableVec Nat).slots.length ≤ 2 →
          (⟨[some 6]⟩ : MovableVec Nat).take 2 = none)
      ∧ (∀ h : 2 < (⟨[some (6 : Nat)]⟩ : MovableVec Nat).slots.length,
          (⟨[some 6]⟩ : MovableVec Nat).take 2
            = some ([some 6].get ⟨2, h⟩, ⟨[some 6].set 2 none⟩)
          ∧ ([some 6].set 2 none).get? 2 = some none
          ∧ ([some 6].set 2 none).length = [some 6].length
          ∧ (∀ j, j ≠ 2 → ([some 6].set 2 none).get? j = [some 6].get? j))) :=
  take_strict_frame ⟨[some 4, none]⟩ ⟨[some 6]⟩ 2

/-! ### Claims C5 and C6 -/

/-- Range take over a slot list `s` for `lo..hi`: one output entry per range
index in ascending order, in-bounds entries hold the slot's content,
out-of-bounds entries hold `none`, and the final state empties exactly the
in-range slots. -/
theorem takeRange_spec_list {T : Type} (s : List (Option T)) (lo hi : Nat) :
    (takeRangeGo s (natRange lo (hi - lo))).1.length = hi - lo
    ∧ (∀ j, j < hi - lo →
        (takeRangeGo s (natRange lo (hi - lo))).1.get? j = some ((s.get? (lo + j)).join))
    ∧ (∀ j, j < hi - lo → s.length ≤ lo + j →
        (takeRangeGo s (natRange lo (hi - lo))).1.get? j = some none)
    ∧ (∀ k, (takeRangeGo s (natRange lo (hi - lo))).2.get? k =
        if lo ≤ k ∧ k < hi then (s.get? k).map (fun _ => none) else s.get? k) := by
  obtain ⟨hlen, hent, hst⟩ := takeRangeGo_natRange_spec (T := T) (hi - lo) lo s
  refine ⟨hlen, hent, ?_, ?_⟩
  · intro j hj hoob
    rw [hent j hj, List.get?_eq_none.mpr hoob]
    rfl
  · intro k
    rw [hst k]
    by_cases hk : lo ≤ k ∧ k < hi
    · rw [if_pos (by omega), if_pos hk]
    · rw [if_neg (by omega), if_neg hk]

/-- C5: `take_range_vec(lo..hi)` on either container flavor never faults: it
applies the bounds-checked take to every range index in ascending order,
collecting one result per index positionally; an index at or beyond the slot
count contributes the empty marker instead of faulting, while single-index
`take` stays strict at such indices. -/
theorem take_range_vec_lenient {T : Type} {N : Nat} (a : MovableArray T N)
    (b : MovableVec T) (lo hi : Nat) :
    ((a.take_range_vec lo hi).1.data.length = hi - lo
      ∧ (∀ j, j < hi - lo →
          (a.take_range_vec lo hi).1.data.get? j = some ((a.slots.get? (lo + j)).join))
      ∧ (∀ j, j < hi - lo → a.slots.length ≤ lo + j →
          (a.take_range_vec lo hi).1.data.get? j = some none)
      ∧ (∀ k, (a.take_range_vec lo hi).2.slots.get? k =
          if lo ≤ k ∧ k < hi then (a.slots.get? k).map (fun _ => none) else a.slots.get? k)
      ∧ (∀ i, a.slots.length ≤ i → a.take i = none))
    ∧ ((b.take_range_vec lo hi).1.data.length = hi - lo
      ∧ (∀ j, j < hi - lo →
          (b.take_range_vec lo hi).1.data.get? j = some ((b.slots.get? (lo + j)).join))
      ∧ (∀ j, j < hi - lo → b.slots.length ≤ lo + j →
          (b.take_range_vec lo hi).1.data.get? j = some none)
      ∧ (∀ k, (b.take_range_vec lo hi).2.slots.get? k =
          if lo ≤ k ∧ k < hi then (b.slots.get? k).map (fun _ => none) else b.slots.get? k)
      ∧ (∀ i, b.slots.length ≤ i → b.take i = none)) := by
  obtain ⟨h1, h2, h3, h4⟩ := takeRange_spec_list a.slots lo hi
  obtain ⟨g1, g2, g3, g4⟩ := takeRange_spec_list b.slots lo hi
  refine ⟨⟨h1, h2, h3, h4, ?_⟩, ⟨g1, g2, g3, g4, ?_⟩⟩
  · intro i hoob
    rw [MovableArray.take, dif_neg (by omega)]
  · intro i hoob
    rw [MovableVec.take, dif_neg (by omega)]

theorem take_range_vec_lenient_witness :
    (((⟨[some 1, some 2]⟩ : MovableArray Nat 2).take_range_vec 1 4).1.data.length = 4 - 1
      ∧ (∀ j, j < 4 - 1 →
          ((⟨[some 1, some 2]⟩ : MovableArray Nat 2).take_range_vec 1 4).1.data.get? j
            = some (([some 1, some 2].get? (1 + j)).join))
      ∧ (∀ j, j < 4 - 1 → [some 1, some 2].length ≤ 1 + j →
          ((⟨[some 1, some 2]⟩ : MovableArray Nat 2).take_range_vec 1 4).1.data.get? j
            = some none)
      ∧ (∀ k, ((⟨[some 1, some 2]⟩ : MovableArray Nat 2).take_range_vec 1 4).2.slots.get? k =
          if 1 ≤ k ∧ k < 4 then ([some 1, some 2].get? k).map (fun _ => none)
          else [some 1, some 2].get? k)
      ∧ (∀ i, [some 1, some 2].length ≤ i →
          (⟨[some 1, some 2]⟩ : MovableArray Nat 2).take i = none))
    ∧ (((⟨[some 5]⟩ : MovableVec Nat).take_range_vec 1 4).1.data.length = 4 - 1
      ∧ (∀ j, j < 4 - 1 →
          ((⟨[some 5]⟩ : MovableVec Nat).take_range_vec 1 4).1.data.get? j
            = some (([some 5].get? (1 + j)).join))
      ∧ (∀ j, j < 4 - 1 → [some 5].length ≤ 1 + j →
          ((⟨[some 5]⟩ : MovableVec Nat).take_range_vec 1 4).1.data.get? j = some none)
      ∧ (∀ k, ((⟨[some 5]⟩ : MovableVec Nat).take_range_vec 1 4).2.slots.get? k =
          if 1 ≤ k ∧ k < 4 then ([some 5].get? k).map (fun _ => none)
          else [some 5].get? k)
      ∧ (∀ i, [some 5].length ≤ i → (⟨[some 5]⟩ : MovableVec Nat).take i = none)) :=
  take_range_vec_lenient ⟨[some 1, some 2]⟩ ⟨[some 5]⟩ 1 4

/-- Range take on a fresh slot list wrapping `src`: the collected values are
exactly the source elements of `lo..hi` wrapped present, and every in-range
slot of the final state is empty. -/
theorem takeRange_untouched_list {T : Type} (src : List T) (lo hi : Nat)
    (hlo : lo ≤ hi) (hhi : hi ≤ src.length) :
    (takeRangeGo (src.map some) (natRange lo (hi - lo))).1
      = ((src.drop lo).take (hi - lo)).map some
    ∧ (∀ i, lo ≤ i → i < hi →
        (takeRangeGo (src.map some) (natRange lo (hi - lo))).2.get? i = some none) := by
  obtain ⟨hlen, hent, hst⟩ := takeRangeGo_natRange_spec (T := T) (hi - lo) lo (src.map some)
  constructor
  · refine List.ext_get? ?_
    intro n
    by_cases hn : n < hi - lo
    · have hx : lo + n < src.length := by omega
      rw [hent n hn, List.get?_map, List.get?_map, List.get?_take hn, List.get?_drop,
        List.get?_eq_get hx]
      rfl
    · have h1 : (takeRangeGo (src.map some) (natRange lo (hi - lo))).1.get? n = none := by
        refine List.get?_eq_none.mpr ?_
        rw [hlen]; omega
      have h2 : (((src.drop lo).take (hi - lo)).map some).get? n = none := by
        refine List.get?_eq_none.mpr ?_
        rw [List.length_map, List.length_take]
        omega
      rw [h1, h2]
  · intro i h1 h2
    rw [hst i, if_pos (by constructor <;> omega)]
    have hx : i < src.length := by omega
    rw [List.get?_map, List.get?_eq_get hx]
    rfl

/-- C6: on an untouched container wrapping `src`, `take_range_vec(lo..hi)`
with `lo ≤ hi ≤ n` returns exactly the source elements at `lo..hi-1`, each
wrapped present; afterwards `take i` for every `i` in `lo..hi` succeeds and
returns empty — for both container flavors. -/
theorem take_range_untouched {T : Type} {N : Nat} (src : List T)
    (a : MovableArray T N) (ha : a.slots = src.map some)
    (b : MovableVec T) (hb : b.slots = src.map some)
    (lo hi : Nat) (hlo : lo ≤ hi) (hhi : hi ≤ src.length) :
    ((a.take_range_vec lo hi).1.data = ((src.drop lo).take (hi - lo)).map some
      ∧ (∀ i, lo ≤ i → i < hi →
          ((a.take_range_vec lo hi).2.take i).map Prod.fst = some none))
    ∧ ((b.take_range_vec lo hi).1.data = ((src.drop lo).take (hi - lo)).map some
      ∧ (∀ i, lo ≤ i → i < hi →
          ((b.take_range_vec lo hi).2.take i).map Prod.fst = some none)) := by
  obtain ⟨hval, hempty⟩ := takeRange_untouched_list src lo hi hlo hhi
  refine ⟨⟨?_, ?_⟩, ⟨?_, ?_⟩⟩
  · show (takeRangeGo a.slots (natRange lo (hi - lo))).1 = _
    rw [ha, hval]
  · intro i h1 h2
    have hg : (a.take_range_vec lo hi).2.slots.get? i = some none := by
      show (takeRangeGo a.slots (natRange lo (hi - lo))).2.get? i = some none
      rw [ha]; exact hempty i h1 h2
    rcases List.get?_eq_some.mp hg with ⟨hlt, hvalg⟩
    rw [MovableArray.take, dif_pos hlt, hvalg]
    rfl
  · show (takeRangeGo b.slots (natRange lo (hi - lo))).1 = _
    rw [hb, hval]
  · intro i h1 h2
    have hg : (b.take_range_vec lo hi).2.slots.get? i = some none := by
      show (takeRangeGo b.slots (natRange lo (hi - lo))).2.get? i = some none
      rw [hb]; exact hempty i h1 h2
    rcases List.get?_eq_some.mp hg with ⟨hlt, hvalg⟩
    rw [MovableVec.take, dif_pos hlt, hvalg]
    rfl

theorem take_range_untouched_witness :
    (((⟨[some 4, some 5, some 6]⟩ : MovableArray Nat 3).slots = [4, 5, 6].map some)
      ∧ ((⟨[some 4, some 5, some 6]⟩ : MovableVec Nat).slots = [4, 5, 6].map some)
      ∧ 1 ≤ 3 ∧ 3 ≤ [4, 5, 6].length) ∧
    ((((⟨[some 4, some 5, some 6]⟩ : MovableArray Nat 3).take_range_vec 1 3).1.data
        = (([4, 5, 6].drop 1).take (3 - 1)).map some
      ∧ (∀ i, 1 ≤ i → i < 3 →
          (((⟨[some 4, some 5, some 6]⟩ : MovableArray Nat 3).take_range_vec 1 3).2.take i).map
            Prod.fst = some none))
    ∧ ((((⟨[some 4, some 5, some 6]⟩ : MovableVec Nat).take_range_vec 1 3).1.data
        = (([4, 5, 6].drop 1).take (3 - 1)).map some
      ∧ (∀ i, 1 ≤ i → i < 3 →
          (((⟨[some 4, some 5, some 6]⟩ : MovableVec Nat).take_range_vec 1 3).2.take i).map
            Prod.fst = some none)))) :=
  ⟨⟨rfl, rfl, by decide, by decide⟩,
    take_range_untouched [4, 5, 6] ⟨[some 4, some 5, some 6]⟩ rfl
      ⟨[some 4, some 5, some 6]⟩ rfl 1 3 (by decide) (by decide)⟩

/-! ### Claims C7, C8, C9 -/

/-- C7: `take_range_array::<S>(lo..hi)` is exactly `take_range_vec(lo..hi)`
followed by `move_vec_to_array` on the collected vector (same returned value
and same container state), and it fails — always with
`LengthUnmatch { expected := S, got := hi - lo }` — iff the range's element
count `hi - lo` differs from `S`.  Both container flavors. -/
theorem take_range_array_refines {T : Type} {N : Nat} (S : Nat)
    (a : MovableArray T N) (b : MovableVec T) (lo hi : Nat) :
    (a.take_range_array S lo hi
        = (move_vec_to_array S (a.take_range_vec lo hi).1, (a.take_range_vec lo hi).2)
      ∧ ((∃ e, (a.take_range_array S lo hi).1 = .error e) ↔ hi - lo ≠ S)
      ∧ (∀ e, (a.take_range_array S lo hi).1 = .error e →
          e = .LengthUnmatch S (hi - lo)))
    ∧ (b.take_range_array S lo hi
        = (move_vec_to_array S (b.take_range_vec lo hi).1, (b.take_range_vec lo hi).2)
      ∧ ((∃ e, (b.take_range_array S lo hi).1 = .error e) ↔ hi - lo ≠ S)
      ∧ (∀ e, (b.take_range_array S lo hi).1 = .error e →
          e = .LengthUnmatch S (hi - lo))) := by
  have key : ∀ v : RVec (Option T), v.cap = v.data.length →
      ((∃ e, move_vec_to_array S v = .error e) ↔ v.data.length ≠ S)
      ∧ (∀ e, move_vec_to_array S v = .error e →
          e = .LengthUnmatch S v.data.length) := by
    intro v hv
    constructor
    · constructor
      · rintro ⟨e, he⟩ hS
        rw [move_vec_to_array,
          if_neg (by simp [RVec.len, RVec.capacity, hv, hS])] at he
        cases he
      · intro hS
        refine ⟨.LengthUnmatch S v.data.length, ?_⟩
        rw [move_vec_to_array,
          if_pos (show v.len ≠ S ∨ v.capacity ≠ S from Or.inl hS)]
        rfl
    · intro e he
      by_cases hS : v.data.length = S
      · rw [move_vec_to_array,
          if_neg (by simp [RVec.len, RVec.capacity, hv, hS])] at he
        cases he
      · rw [move_vec_to_array,
          if_pos (show v.len ≠ S ∨ v.capacity ≠ S from Or.inl hS)] at he
        exact (Except.error.inj he).symm
  have hlenA : (a.take_range_vec lo hi).1.data.length = hi - lo := by
    show (takeRangeGo a.slots (natRange lo (hi - lo))).1.length = hi - lo
    exact (takeRange_spec_list a.slots lo hi).1
  have hlenB : (b.take_range_vec lo hi).1.data.length = hi - lo := by
    show (takeRangeGo b.slots (natRange lo (hi - lo))).1.length = hi - lo
    exact (takeRange_spec_list b.slots lo hi).1
  obtain ⟨kA1, kA2⟩ := key (a.take_range_vec lo hi).1 rfl
  obtain ⟨kB1, kB2⟩ := key (b.take_range_vec lo hi).1 rfl
  rw [hlenA] at kA1 kA2
  rw [hlenB] at kB1 kB2
  exact ⟨⟨rfl, kA1, kA2⟩, ⟨rfl, kB1, kB2⟩⟩

theorem take_range_array_refines_witness :
    ((⟨[some 1, some 2, some 3]⟩ : MovableArray Nat 3).take_range_array 2 1 3
        = (move_vec_to_array 2
            ((⟨[some 1, some 2, some 3]⟩ : MovableArray Nat 3).take_range_vec 1 3).1,
          ((⟨[some 1, some 2, some 3]⟩ : MovableArray Nat 3).take_range_vec 1 3).2)
      ∧ ((∃ e, ((⟨[some 1, some 2, some 3]⟩ : MovableArray Nat 3).take_range_array 2 1 3).1
            = .error e) ↔ 3 - 1 ≠ 2)
      ∧ (∀ e, ((⟨[some 1, some 2, some 3]⟩ : MovableArray Nat 3).take_range_array 2 1 3).1
            = .error e → e = .LengthUnmatch 2 (3 - 1)))
    ∧ ((⟨[some 7]⟩ : MovableVec Nat).take_range_array 2 1 3
        = (move_vec_to_array 2 ((⟨[some 7]⟩ : MovableVec Nat).take_range_vec 1 3).1,
          ((⟨[some 7]⟩ : MovableVec Nat).take_range_vec 1 3).2)
      ∧ ((∃ e, ((⟨[some 7]⟩ : MovableVec Nat).take_range_array 2 1 3).1 = .error e)
          ↔ 3 - 1 ≠ 2)
      ∧ (∀ e, ((⟨[some 7]⟩ : MovableVec Nat).take_range_array 2 1 3).1 = .error e →
          e = .LengthUnmatch 2 (3 - 1))) :=
  take_range_array_refines 2 ⟨[some 1, some 2, some 3]⟩ ⟨[some 7]⟩ 1 3

/-- C8: `map f` on either container flavor keeps the slot count and the
reported length, and output slot `i` is `f` of input slot `i` for every
index — `f` is applied to empty slots as well and is free to produce a
present or an empty output slot. -/
theorem map_pointwise {T R : Type} {N : Nat} (f : Option T → Option R)
    (a : MovableArray T N) (b : MovableVec T) :
    (a.map f).len = a.len
    ∧ (a.map f).slots.length = a.slots.length
    ∧ (∀ i, (a.map f).slots.get? i = (a.slots.get? i).map f)
    ∧ (b.map f).len = b.len
    ∧ (b.map f).slots.length = b.slots.length
    ∧ (∀ i, (b.map f).slots.get? i = (b.slots.get? i).map f) := by
  refine ⟨rfl, ?_, fun i => List.get?_map f _ i, ?_, ?_, fun i => List.get?_map f _ i⟩
  · show (a.slots.map f).length = a.slots.length
    exact List.length_map _ _
  · show (b.slots.map f).length = b.slots.length
    exact List.length_map _ _
  · show (b.slots.map f).length = b.slots.length
    exact List.length_map _ _

/-- C9: dynamic-slot construction never fails and has no length/capacity
precondition: `MovableVec::from_vec`, `MovableVec::from_array` and the
`movable` façade are total, and always deliver a container of the input's
length with every element wrapped present in positional order (the input
vector's capacity is arbitrary and never consulted). -/
theorem dynamic_construction_total {T : Type} (N : Nat) (v : RVec T) (arr : List T) :
    (MovableVec.from_vec v).slots = v.data.map some
    ∧ (MovableVec.from_vec v).len = v.data.length
    ∧ (MovableVec.from_array arr).slots = arr.map some
    ∧ (MovableVec.from_array arr).len = arr.length
    ∧ movable (VecOrArray.vec (N := N) v) = MovableVec.from_vec v
    ∧ movable (VecOrArray.array (T := T) (N := N) arr) = MovableVec.from_array arr := by
  refine ⟨rfl, ?_, rfl, ?_, rfl, rfl⟩
  · show (v.data.map some).length = v.data.length
    exact List.length_map _ _
  · show (arr.map some).length = arr.length
    exact List.length_map _ _

/-! ### Claim C10 -/

/-- One mutating public-operation step on a slot list: a successful `take`
(either flavor; it sets the taken slot to `None` after the bounds check), or
a `take_range_vec` / `take_range_array` (both advance the state the same
way).  The read-only operations (`len`, `Index`) and the consuming ones
(`into_inner`, `map`) do not mutate a live container. -/
inductive SlotStep (T : Type) : List (Option T) → List (Option T) → Prop
  | take (s : List (Option T)) (i : Nat) (h : i < s.length) :
      SlotStep T s (s.set i none)
  | takeRange (s : List (Option T)) (lo hi : Nat) :
      SlotStep T s (takeRangeGo s (natRange lo (hi - lo))).2

theorem SlotStep.length_none_mono {T : Type} {s t : List (Option T)}
    (h : SlotStep T s t) :
    t.length = s.length ∧ ∀ j, s.get? j = some none → t.get? j = some none := by
  cases h with
  | take i hlt =>
    refine ⟨List.length_set _ _ _, ?_⟩
    intro j hj
    by_cases hij : i = j
    · subst hij
      exact List.get?_set_eq_of_lt none hlt
    · rw [List.get?_set_ne none _ hij]
      exact hj
  | takeRange lo hi =>
    exact ⟨takeRangeGo_state_length _ _, fun j hj => takeRangeGo_none_mono _ _ j hj⟩

/-- C10 (amended): along any sequence of take / range-take operations the
slot count is preserved and an emptied slot stays empty; a successful write
through `MovableArray`'s `IndexMut` also preserves the slot count, as does
`map` — but those two can make an emptied slot present again, so the
one-way present→empty transition holds only for the take operations. -/
theorem slot_ops_invariants {T : Type} {N : Nat} (f : Option T → Option T)
    (s t : List (Option T))
    (hsteps : Relation.ReflTransGen (SlotStep T) s t)
    (a : MovableArray T N) (i : Nat) (v : Option T) (a' : MovableArray T N)
    (hset : a.index_mut_set i v = some a') :
    t.length = s.length
    ∧ (∀ j, s.get? j = some none → t.get? j = some none)
    ∧ a'.slots.length = a.slots.length
    ∧ (a.map f).slots.length = a.slots.length := by
  have hrt : t.length = s.length ∧ ∀ j, s.get? j = some none → t.get? j = some none := by
    induction hsteps with
    | refl => exact ⟨rfl, fun j hj => hj⟩
    | tail _ hstep ih =>
      obtain ⟨ihlen, ihmono⟩ := ih
      obtain ⟨slen, smono⟩ := hstep.length_none_mono
      exact ⟨by rw [slen, ihlen], fun j hj => smono j (ihmono j hj)⟩
  refine ⟨hrt.1, hrt.2, ?_, ?_⟩
  · rw [MovableArray.index_mut_set] at hset
    by_cases hlt : i < a.slots.length
    · rw [if_pos hlt] at hset
      cases hset
      exact List.length_set _ _ _
    · rw [if_neg hlt] at hset
      cases hset
  · show (a.slots.map f).length = a.slots.length
    exact List.length_map _ _

theorem slot_ops_invariants_witness :
    (MovableArray.index_mut_set (⟨[some 9]⟩ : MovableArray Nat 1) 0 (some 3)
        = some ⟨[some 3]⟩)
    ∧ (([some 1, some 2].set 0 none).length = [some (1 : Nat), some 2].length
      ∧ (∀ j, [some (1 : Nat), some 2].get? j = some none →
          ([some 1, some 2].set 0 none).get? j = some none)
      ∧ (⟨[some 3]⟩ : MovableArray Nat 1).slots.length
          = (⟨[some (9 : Nat)]⟩ : MovableArray Nat 1).slots.length
      ∧ ((⟨[some (9 : Nat)]⟩ : MovableArray Nat 1).map (fun o => o)).slots.length
          = (⟨[some 9]⟩ : MovableArray Nat 1).slots.length) :=
  ⟨by decide,
    slot_ops_invariants (fun o => o) [some 1, some 2] ([some 1, some 2].set 0 none)
      (Relation.ReflTransGen.single (SlotStep.take _ 0 (by decide)))
      ⟨[some 9]⟩ 0 (some 3) ⟨[some 3]⟩ (by decide)⟩

/-- C10 as stated is false on the code: after `take 1` empties slot 1 of a
fresh `MovableArray` built from `[1, 2, 3]`, writing `Some 5` through the
public `IndexMut` implementation makes the previously emptied slot present
again. -/
theorem slot_resurrection_counterexample :
    (MovableArray.from_array 3 [1, 2, 3]).take 1
      = some (some 2, (⟨[some 1, none, some 3]⟩ : MovableArray Nat 3))
    ∧ (⟨[some 1, none, some 3]⟩ : MovableArray Nat 3).slots.get? 1 = some none
    ∧ MovableArray.index_mut_set (⟨[some 1, none, some 3]⟩ : MovableArray Nat 3) 1 (some 5)
      = some ⟨[some 1, some 5, some 3]⟩
    ∧ (⟨[some 1, some 5, some 3]⟩ : MovableArray Nat 3).slots.get? 1 = some (some 5) := by
  refine ⟨by decide, by decide, by decide, by decide⟩

end Moving
